import Mathlib

/-!
Verification of `roles/openshift_health_checker/library/aos_version.py`.

The module checks, for a yum-managed host, that the available OpenShift
packages are consistent with a requested release and deployment type.  We
embed the pure validation logic: the three checker functions
(`_check_precise_version_found`, `_check_higher_version_found`,
`_check_multi_minor_release`), the exception hierarchy (`AosVersionException`
and its three subclasses), and the entrypoint `main`.  The yum query in
`_retrieve_available_packages` is an external effect; its result (either a
`PackageSackError` message or a list of available package records) is passed
to the entrypoint as a parameter.
-/

set_option maxRecDepth 10000

namespace AosVersion

/-- A yum package record as used by the module: only `pkg.name` and
`pkg.version` are consulted. -/
structure PackageRecord where
  name : String
  version : String
deriving DecidableEq

/-! ### Python string primitives used by the module

The module manipulates version strings with `s.split('.')`, `'.'.join(...)`,
`s.count('.')` and `int(seg)`.  We embed each of these directly. -/

/-- Python `s.split('.')` on the character list: always returns at least one
(possibly empty) segment; `""` splits to `[""]`, `"."` to `["", ""]`. -/
def splitOnDotChars : List Char → List (List Char)
  | [] => [[]]
  | c :: rest =>
    let r := splitOnDotChars rest
    if c = '.' then [] :: r
    else
      match r with
      | [] => [[c]]
      | g :: gs => (c :: g) :: gs

/-- Python `s.split('.')`. -/
def pySplitDot (s : String) : List String :=
  (splitOnDotChars s.toList).map (fun cs => String.mk cs)

/-- Python `'.'.join(l)`. -/
def joinDots : List String → String
  | [] => ""
  | [s] => s
  | s :: rest => s ++ "." ++ joinDots rest

/-- Python `s.count('.')` (single-character needle). -/
def dotCount (s : String) : Nat :=
  s.toList.count '.'

/-- Decimal digit value of a character, if it is a digit. -/
def digitVal (c : Char) : Option Nat :=
  if '0' ≤ c ∧ c ≤ '9' then some (c.toNat - '0'.toNat) else none

/-- Accumulate decimal digits; fails on the first non-digit character. -/
def parseNatAux : List Char → Nat → Option Nat
  | [], acc => some acc
  | c :: rest, acc =>
    match digitVal c with
    | some d => parseNatAux rest (acc * 10 + d)
    | none => none

/-- Parse a non-empty all-digit character list as a natural number. -/
def parseNatCore : List Char → Option Nat
  | [] => none
  | cs => parseNatAux cs 0

/-- Whitespace characters stripped by Python `int()` (those of `str.isspace`
for byte strings: space, tab, newline, carriage return, vertical tab, form
feed). -/
def pyIsSpace (c : Char) : Bool :=
  c = ' ' || c = '\t' || c = '\n' || c = '\r' || c = '\x0b' || c = '\x0c'

/-- Leading and trailing whitespace stripping performed by Python `int()`. -/
def pyStripWs (cs : List Char) : List Char :=
  ((cs.dropWhile pyIsSpace).reverse.dropWhile pyIsSpace).reverse

/-- Python `int(seg)` on one version segment: leading/trailing whitespace is
stripped (so `int(" 3")` is `3`), then an optional sign followed by at least
one decimal digit; anything else (empty segment, letters, dots, an inner
space) raises `ValueError`, which we model as `none`.  These are Python 2
semantics: the module imports `yum`, which exists only on Python 2 — under
any interpreter without it, `main` exits at lines 50-51 before any parsing —
so Python 3.6 underscore grouping is not part of the reachable behaviour. -/
def parseIntSeg (s : String) : Option Int :=
  match pyStripWs s.toList with
  | '-' :: rest => (parseNatCore rest).map (fun n => -(n : Int))
  | '+' :: rest => (parseNatCore rest).map (fun n => (n : Int))
  | cs => (parseNatCore cs).map (fun n => (n : Int))

/-- Sequence of `int(segment)` parses: fails as a whole on the first failing
segment, like the Python list comprehension. -/
def parseSegments : List String → Option (List Int)
  | [] => some []
  | s :: rest =>
    match parseIntSeg s, parseSegments rest with
    | some i, some is => some (i :: is)
    | _, _ => none

/-- Python `[int(segment) for segment in s.split(".")]`: the whole list if
every segment parses, otherwise the `ValueError` (modelled as `none`). -/
def parseVersion (s : String) : Option (List Int) :=
  parseSegments (pySplitDot s)

/-- Python `<` on lists of integers: lexicographic, element-wise, with a
strict prefix comparing less than the longer list. -/
def pyListLt : List Int → List Int → Bool
  | [], [] => false
  | [], _ :: _ => true
  | _ :: _, [] => false
  | a :: as, b :: bs => if a < b then true else if b < a then false else pyListLt as bs

/-! ### Association-list model of Python `dict`

Python dicts preserve insertion order; updating an existing key keeps its
position, and a new key is appended at the end. -/

/-- First value stored under `key`, if any (`key in d` plus `d[key]`). -/
def dictFind {α : Type} : List (String × α) → String → Option α
  | [], _ => none
  | (k, v) :: rest, key => if k = key then some v else dictFind rest key

/-- Python `d[key] = val`: replace in place if present, else append. -/
def dictSet {α : Type} : List (String × α) → String → α → List (String × α)
  | [], key, val => [(key, val)]
  | (k, v) :: rest, key, val =>
    if k = key then (key, val) :: rest else (k, v) :: dictSet rest key val

/-! ### Exceptions -/

/-- The `AosVersionException` hierarchy: the retrieval failure raised in
`_retrieve_available_packages` and the three checker-specific subclasses.
Each constructor carries the data its Python `__init__` received. -/
inductive AosVersionException where
  | retrievalFail (excinfo : String)
  | preciseVersionNotFound (requested_release : String) (not_found : List String)
  | foundHigherVersion (requested_release : String) (higher_found : List String)
  | foundMultiRelease (multi_found : List String)
deriving DecidableEq

/-- The message string each `__init__` builds and passes to
`Exception.__init__` (joined with newlines). -/
def exceptionMessage : AosVersionException → String
  | .retrievalFail excinfo =>
      String.intercalate "\n"
        ["Unable to find any OpenShift packages.",
         "Check your subscription and repo settings.",
         excinfo]
  | .preciseVersionNotFound requested_release not_found =>
      String.intercalate "\n"
        (["Not all of the required packages are available at requested version "
            ++ requested_release ++ ":"]
          ++ not_found.map (fun name => "  " ++ name)
          ++ ["Please check your subscriptions and enabled repositories."])
  | .foundHigherVersion requested_release higher_found =>
      String.intercalate "\n"
        (["Some required package(s) are available at a version",
          "that is higher than requested " ++ requested_release ++ ":"]
          ++ higher_found.map (fun name => "  " ++ name)
          ++ ["This will prevent installing the version you requested.",
              "Please check your enabled repositories or adjust openshift_release."])
  | .foundMultiRelease multi_found =>
      String.intercalate "\n"
        (["Multiple minor versions of these packages are available"]
          ++ multi_found.map (fun name => "  " ++ name)
          ++ ["There should only be one OpenShift release repository enabled at a time."])

/-- The `problem_pkgs` attribute: the base class default is `None`; each
checker subclass stores its structured list of offending package names. -/
def problemPkgs : AosVersionException → Option (List String)
  | .retrievalFail _ => none
  | .preciseVersionNotFound _ not_found => some not_found
  | .foundHigherVersion _ higher_found => some higher_found
  | .foundMultiRelease multi_found => some multi_found

/-! ### `_check_precise_version_found` (lines 115-136) -/

/-- Line 126: `'.'.join(pkg.version.split('.')[:requested_openshift_release.count('.') + 1])`. -/
def match_version (version requested_openshift_release : String) : String :=
  joinDots ((pySplitDot version).take (dotCount requested_openshift_release + 1))

/-- The names entered into `pkgs_precise_version_found` by the loop in lines
121-128: records whose name is expected and whose truncated version equals
the requested release (only membership in the dict is consulted later). -/
def pkgs_precise_version_found (pkgs : List PackageRecord) (expected_pkgs : List String)
    (requested_openshift_release : String) : List String :=
  (pkgs.filter (fun pkg =>
      decide (pkg.name ∈ expected_pkgs)
        && decide (match_version pkg.version requested_openshift_release
              = requested_openshift_release))).map PackageRecord.name

/-- The `not_found` list built in lines 130-133: expected names not marked
found, in expected-name iteration order. -/
def precise_not_found (pkgs : List PackageRecord) (expected_pkgs : List String)
    (requested_openshift_release : String) : List String :=
  expected_pkgs.filter (fun name =>
    decide (name ∉ pkgs_precise_version_found pkgs expected_pkgs requested_openshift_release))

/-- `_check_precise_version_found`: raises `PreciseVersionNotFound` exactly
when `not_found` is non-empty (lines 135-136). -/
def check_precise_version_found (pkgs : List PackageRecord) (expected_pkgs : List String)
    (requested_openshift_release : String) : Option AosVersionException :=
  let not_found := precise_not_found pkgs expected_pkgs requested_openshift_release
  if not_found = [] then none
  else some (.preciseVersionNotFound requested_openshift_release not_found)

/-! ### `_check_higher_version_found` (lines 150-167) -/

/-- Python `higher_version_for_pkg.get(pkg.name, [])`. -/
def dictGetD (m : List (String × List Int)) (key : String) : List Int :=
  (dictFind m key).getD []

/-- One iteration of the loop in lines 154-161.  A record with an unexpected
name is skipped before its version is parsed; parsing a malformed version
raises `ValueError` (modelled as `.error`). -/
def higher_version_step (req_release_arr : List Int) (expected_pkgs : List String)
    (m : List (String × List Int)) (pkg : PackageRecord) :
    Except String (List (String × List Int)) :=
  if pkg.name ∉ expected_pkgs then .ok m
  else
    match parseVersion pkg.version with
    | none => .error ("ValueError: invalid literal for int() in version " ++ pkg.version)
    | some version =>
      let too_high := pyListLt req_release_arr (version.take req_release_arr.length)
      let higher_than_seen := pyListLt (dictGetD m pkg.name) version
      if too_high && higher_than_seen then .ok (dictSet m pkg.name version) else .ok m

/-- The loop body of `higher_version_step` once its parses are known to
succeed (used to relate the fold to a pure computation). -/
def higher_version_step_pure (req_release_arr : List Int) (expected_pkgs : List String)
    (m : List (String × List Int)) (pkg : PackageRecord) : List (String × List Int) :=
  if pkg.name ∉ expected_pkgs then m
  else
    match parseVersion pkg.version with
    | none => m
    | some version =>
      let too_high := pyListLt req_release_arr (version.take req_release_arr.length)
      let higher_than_seen := pyListLt (dictGetD m pkg.name) version
      if too_high && higher_than_seen then dictSet m pkg.name version else m

/-- The `higher_version_for_pkg` dict after the loop in lines 154-161. -/
def higher_version_for_pkg (pkgs : List PackageRecord) (expected_pkgs : List String)
    (req_release_arr : List Int) : Except String (List (String × List Int)) :=
  pkgs.foldlM (higher_version_step req_release_arr expected_pkgs) []

/-- The `name + '-' + '.'.join(str(segment) for segment in version)` string
built for each entry in lines 164-166. -/
def higher_found_entry (p : String × List Int) : String :=
  p.1 ++ "-" ++ joinDots (p.2.map (fun segment => toString segment))

/-- `_check_higher_version_found`: parses the requested release (line 151),
runs the loop, and raises `FoundHigherVersion` when the dict is non-empty
(lines 163-167).  A `ValueError` from `int()` propagates as `.error`. -/
def check_higher_version_found (pkgs : List PackageRecord) (expected_pkgs : List String)
    (requested_openshift_release : String) : Except String (Option AosVersionException) :=
  match parseVersion requested_openshift_release with
  | none => .error ("ValueError: invalid literal for int() in requested release "
      ++ requested_openshift_release)
  | some req_release_arr =>
    match higher_version_for_pkg pkgs expected_pkgs req_release_arr with
    | .error e => .error e
    | .ok m =>
      if m = [] then .ok none
      else .ok (some (.foundHigherVersion requested_openshift_release
          (m.map higher_found_entry)))

/-! ### `_check_multi_minor_release` (lines 179-195) -/

/-- Line 184: `'.'.join(pkg.version.split('.')[:2])`. -/
def minor_release (version : String) : String :=
  joinDots ((pySplitDot version).take 2)

/-- Inner dict `pkgs_by_name_version[pkg.name][minor_release] = True`: only
key membership matters, so we keep the distinct keys in insertion order. -/
def insertIfAbsent (l : List String) (x : String) : List String :=
  if x ∈ l then l else l ++ [x]

/-- One iteration of the loop in lines 182-187.  Note there is no
expected-name filter in this loop; the filter happens in lines 190-191. -/
def multi_minor_step (m : List (String × List String)) (pkg : PackageRecord) :
    List (String × List String) :=
  let minor := minor_release pkg.version
  match dictFind m pkg.name with
  | none => dictSet m pkg.name [minor]
  | some minors => dictSet m pkg.name (insertIfAbsent minors minor)

/-- The `pkgs_by_name_version` dict after the loop in lines 181-187. -/
def pkgs_by_name_version (pkgs : List PackageRecord) : List (String × List String) :=
  pkgs.foldl multi_minor_step []

/-- The `multi_found` list built in lines 189-192: expected names present in
the dict with more than one distinct minor release, in expected-name
iteration order. -/
def multi_found (pkgs : List PackageRecord) (expected_pkgs : List String) : List String :=
  expected_pkgs.filter (fun name =>
    match dictFind (pkgs_by_name_version pkgs) name with
    | some minors => decide (minors.length > 1)
    | none => false)

/-- `_check_multi_minor_release`: raises `FoundMultiRelease` exactly when
`multi_found` is non-empty (lines 194-195). -/
def check_multi_minor_release (pkgs : List PackageRecord) (expected_pkgs : List String) :
    Option AosVersionException :=
  let found := multi_found pkgs expected_pkgs
  if found = [] then none else some (.foundMultiRelease found)

/-! ### `main` (lines 39-77) -/

/-- The module parameters from `argument_spec` (lines 42-46).  `rpm_pfx`
embeds the parameter whose source name is the rpm name base ending in
`-master` / `-node` derivations. -/
structure ModuleParams where
  requested_openshift_release : String
  openshift_deployment_type : String
  rpm_pfx : String
deriving DecidableEq

/-- The expected-package set of lines 57-61, in construction order. -/
def expected_pkgs_of (pfx : String) : List String :=
  [pfx, pfx ++ "-master", pfx ++ "-node"]

/-- Lines 73-74: the multi-minor check runs only when the deployment type is
in `['openshift-enterprise']`. -/
def multi_release_step (pkgs : List PackageRecord) (expected_pkgs : List String)
    (deployment_type : String) : Option AosVersionException :=
  if deployment_type ∈ ["openshift-enterprise"] then
    check_multi_minor_release pkgs expected_pkgs
  else none

/-- The body of the `try` block after retrieval (lines 70-74): the two
version checks run only when the requested release is non-empty (Python
truthiness of the string), then the multi-minor step.  The first raised
`AosVersionException` is returned; a `ValueError` escapes as `.error`. -/
def run_checks (pkgs : List PackageRecord) (expected_pkgs : List String)
    (requested_openshift_release deployment_type : String) :
    Except String (Option AosVersionException) :=
  if requested_openshift_release ≠ "" then
    match check_precise_version_found pkgs expected_pkgs requested_openshift_release with
    | some exc => .ok (some exc)
    | none =>
      match check_higher_version_found pkgs expected_pkgs requested_openshift_release with
      | .error e => .error e
      | .ok (some exc) => .ok (some exc)
      | .ok none => .ok (multi_release_step pkgs expected_pkgs deployment_type)
  else .ok (multi_release_step pkgs expected_pkgs deployment_type)

/-- How one invocation of `main` ends: `module.exit_json(changed=False)`,
`module.fail_json(msg=...)` — whose only payload is the message string — or
an exception outside the `AosVersionException` hierarchy escaping the
`except` clause (a crash of the module process). -/
inductive Outcome where
  | exited (changed : Bool)
  | failed (msg : String)
  | crashed (err : String)
deriving DecidableEq

/-- `main` (lines 39-77).  The yum query result is passed in: `.error` is the
`PackageSackError` string wrapped by `_retrieve_available_packages` into an
`AosVersionException`, `.ok` the list of available records. -/
def runMain (params : ModuleParams) (retrieval : Except String (List PackageRecord)) :
    Outcome :=
  if params.rpm_pfx = "" then .failed "rpm_prefix must not be empty"
  else
    let expected_pkgs := expected_pkgs_of params.rpm_pfx
    match retrieval with
    | .error excinfo => .failed (exceptionMessage (.retrievalFail excinfo))
    | .ok pkgs =>
      match run_checks pkgs expected_pkgs params.requested_openshift_release
          params.openshift_deployment_type with
      | .error err => .crashed err
      | .ok (some exc) => .failed (exceptionMessage exc)
      | .ok none => .exited false

/-! ### Basic facts about the string utilities -/

theorem splitOnDotChars_ne_nil (cs : List Char) : splitOnDotChars cs ≠ [] := by
  cases cs with
  | nil => simp [splitOnDotChars]
  | cons c rest =>
    simp only [splitOnDotChars]
    split
    · simp
    · split <;> simp

theorem splitOnDotChars_length (cs : List Char) :
    (splitOnDotChars cs).length = cs.count '.' + 1 := by
  induction cs with
  | nil => simp [splitOnDotChars]
  | cons c rest ih =>
    by_cases hc : c = '.'
    · subst hc
      simp only [splitOnDotChars, if_pos rfl, List.length_cons, List.count_cons, ih]
      simp
      omega
    · cases hr : splitOnDotChars rest with
      | nil => exact absurd hr (splitOnDotChars_ne_nil rest)
      | cons g gs =>
        rw [hr] at ih
        simp only [splitOnDotChars, if_neg hc, hr, List.length_cons, List.count_cons] at ih ⊢
        simp only [beq_iff_eq, if_neg hc]
        omega

theorem pySplitDot_ne_nil (s : String) : pySplitDot s ≠ [] := by
  unfold pySplitDot
  simp [splitOnDotChars_ne_nil]

theorem pySplitDot_length (s : String) : (pySplitDot s).length = dotCount s + 1 := by
  unfold pySplitDot dotCount
  simp [splitOnDotChars_length]

theorem parseVersion_ne_nil {s : String} {v : List Int} (h : parseVersion s = some v) :
    v ≠ [] := by
  unfold parseVersion at h
  cases hs : pySplitDot s with
  | nil => exact absurd hs (pySplitDot_ne_nil s)
  | cons a l =>
    rw [hs] at h
    cases ha : parseIntSeg a with
    | none => simp [parseSegments, ha] at h
    | some b =>
      cases hl : parseSegments l with
      | none => simp [parseSegments, ha, hl] at h
      | some bs =>
        simp only [parseSegments, ha, hl, Option.some.injEq] at h
        subst h
        simp

/-! ### Order facts about Python list comparison -/

theorem pyListLt_nil_lt {w : List Int} (h : w ≠ []) : pyListLt [] w = true := by
  cases w with
  | nil => exact absurd rfl h
  | cons a as => rfl

theorem pyListLt_irrefl : ∀ l : List Int, pyListLt l l = false := by
  intro l
  induction l with
  | nil => rfl
  | cons a as ih => simp [pyListLt, ih]

theorem pyListLt_asymm : ∀ a b : List Int, pyListLt a b = true → pyListLt b a = false := by
  intro a
  induction a with
  | nil =>
    intro b h
    cases b with
    | nil => simp [pyListLt] at h
    | cons y ys => rfl
  | cons x xs ih =>
    intro b h
    cases b with
    | nil => simp [pyListLt] at h
    | cons y ys =>
      rcases lt_trichotomy x y with hxy | hxy | hxy
      · simp [pyListLt, hxy, lt_asymm hxy]
      · subst hxy
        simp only [pyListLt, lt_self_iff_false, if_false] at h ⊢
        exact ih ys h
      · simp [pyListLt, hxy, lt_asymm hxy] at h

theorem pyListLt_trans : ∀ a b c : List Int,
    pyListLt a b = true → pyListLt b c = true → pyListLt a c = true := by
  intro a
  induction a with
  | nil =>
    intro b c hab hbc
    cases c with
    | nil =>
      cases b with
      | nil => simp [pyListLt] at hab
      | cons y ys => simp [pyListLt] at hbc
    | cons z zs => rfl
  | cons x xs ih =>
    intro b c hab hbc
    cases b with
    | nil => simp [pyListLt] at hab
    | cons y ys =>
      cases c with
      | nil => simp [pyListLt] at hbc
      | cons z zs =>
        rcases lt_trichotomy x y with hxy | hxy | hxy
        · rcases lt_trichotomy y z with hyz | hyz | hyz
          · simp [pyListLt, lt_trans hxy hyz]
          · subst hyz; simp [pyListLt, hxy]
          · simp [pyListLt, hyz, lt_asymm hyz] at hbc
        · subst hxy
          simp only [pyListLt, lt_self_iff_false, if_false] at hab
          rcases lt_trichotomy x z with hxz | hxz | hxz
          · simp [pyListLt, hxz]
          · subst hxz
            simp only [pyListLt, lt_self_iff_false, if_false] at hbc ⊢
            exact ih ys zs hab hbc
          · simp [pyListLt, hxz, lt_asymm hxz] at hbc
        · simp [pyListLt, hxy, lt_asymm hxy] at hab

theorem pyListLt_conn : ∀ a b : List Int,
    pyListLt a b = false → pyListLt b a = false → a = b := by
  intro a
  induction a with
  | nil =>
    intro b h1 _
    cases b with
    | nil => rfl
    | cons y ys => simp [pyListLt] at h1
  | cons x xs ih =>
    intro b h1 h2
    cases b with
    | nil => simp [pyListLt] at h2
    | cons y ys =>
      rcases lt_trichotomy x y with hxy | hxy | hxy
      · simp [pyListLt, hxy] at h1
      · subst hxy
        simp only [pyListLt, lt_self_iff_false, if_false] at h1 h2
        rw [ih ys h1 h2]
      · simp [pyListLt, hxy] at h2

/-! ### Dictionary lemmas -/

theorem dictFind_dictSet_self {α : Type} (m : List (String × α)) (k : String) (v : α) :
    dictFind (dictSet m k v) k = some v := by
  induction m with
  | nil => simp [dictSet, dictFind]
  | cons p rest ih =>
    obtain ⟨k', v'⟩ := p
    by_cases h : k' = k
    · simp [dictSet, h, dictFind]
    · simp [dictSet, h, dictFind, ih]

theorem dictFind_dictSet_ne {α : Type} (m : List (String × α)) (k k' : String) (v : α)
    (h : k ≠ k') : dictFind (dictSet m k v) k' = dictFind m k' := by
  induction m with
  | nil => simp [dictSet, dictFind, h]
  | cons p rest ih =>
    obtain ⟨k₀, v₀⟩ := p
    by_cases h0 : k₀ = k
    · subst h0
      simp [dictSet, dictFind, h]
    · simp only [dictSet, if_neg h0, dictFind]
      by_cases h1 : k₀ = k'
      · simp [h1]
      · simp [h1, ih]

/-! ### Claim theorems -/

theorem mem_pkgs_precise_version_found {pkgs : List PackageRecord}
    {expected_pkgs : List String} {requested : String} {name : String} :
    name ∈ pkgs_precise_version_found pkgs expected_pkgs requested ↔
      ∃ pkg ∈ pkgs, pkg.name = name ∧ pkg.name ∈ expected_pkgs ∧
        match_version pkg.version requested = requested := by
  unfold pkgs_precise_version_found
  simp only [List.mem_map, List.mem_filter, Bool.and_eq_true, decide_eq_true_eq]
  constructor
  · rintro ⟨pkg, ⟨hmem, hexp, hmv⟩, hname⟩
    exact ⟨pkg, hmem, hname, hexp, hmv⟩
  · rintro ⟨pkg, hmem, hname, hexp, hmv⟩
    exact ⟨pkg, ⟨hmem, hexp, hmv⟩, hname⟩

/-- C1: the precise-version checker passes an expected package name iff some
record with that name has a version whose truncation to the requested number
of dot-separated segments equals the requested string exactly; after the scan
it raises `PreciseVersionNotFound` listing exactly the expected names not so
matched (e.g. requested "3.4" with versions 3.4.1 / 3.5.0 / 3.3.9 for
pkgA / pkgB / pkgC passes pkgA and reports pkgB and pkgC). -/
theorem precise_version_check_characterization
    (pkgs : List PackageRecord) (expected_pkgs : List String) (requested : String) :
    (∀ name, name ∉ precise_not_found pkgs expected_pkgs requested ↔
        (name ∈ expected_pkgs →
          ∃ pkg ∈ pkgs, pkg.name = name ∧
            joinDots ((pySplitDot pkg.version).take ((pySplitDot requested).length))
              = requested))
    ∧ (check_precise_version_found pkgs expected_pkgs requested = none ↔
        ∀ name ∈ expected_pkgs, ∃ pkg ∈ pkgs, pkg.name = name ∧
          joinDots ((pySplitDot pkg.version).take ((pySplitDot requested).length))
            = requested)
    ∧ (∀ exc, check_precise_version_found pkgs expected_pkgs requested = some exc →
        exc = .preciseVersionNotFound requested
            (precise_not_found pkgs expected_pkgs requested)
          ∧ precise_not_found pkgs expected_pkgs requested ≠ [])
    ∧ precise_not_found [⟨"pkgA", "3.4.1"⟩, ⟨"pkgB", "3.5.0"⟩, ⟨"pkgC", "3.3.9"⟩]
        ["pkgA", "pkgB", "pkgC"] "3.4" = ["pkgB", "pkgC"] := by
  have hsegs : ∀ version : String,
      joinDots ((pySplitDot version).take ((pySplitDot requested).length))
        = match_version version requested := by
    intro version
    rw [pySplitDot_length, match_version]
  have hmem : ∀ name, name ∉ precise_not_found pkgs expected_pkgs requested ↔
      (name ∈ expected_pkgs →
        ∃ pkg ∈ pkgs, pkg.name = name ∧ match_version pkg.version requested = requested) := by
    intro name
    unfold precise_not_found
    simp only [List.mem_filter, decide_eq_true_eq, not_and, not_not]
    constructor
    · intro h hm
      obtain ⟨pkg, hpkg, hname, _, hmv⟩ := mem_pkgs_precise_version_found.mp (h hm)
      exact ⟨pkg, hpkg, hname, hmv⟩
    · intro h hm
      obtain ⟨pkg, hpkg, hname, hmv⟩ := h hm
      exact mem_pkgs_precise_version_found.mpr ⟨pkg, hpkg, hname, hname ▸ hm, hmv⟩
  refine ⟨?_, ?_, ?_, by decide⟩
  · intro name
    simp only [hsegs]
    exact hmem name
  · unfold check_precise_version_found
    constructor
    · intro h name hname
      simp only [hsegs]
      by_cases hempty : precise_not_found pkgs expected_pkgs requested = []
      · have : name ∉ precise_not_found pkgs expected_pkgs requested := by
          rw [hempty]; simp
        exact (hmem name).mp this hname
      · simp [hempty] at h
    · intro h
      have hempty : precise_not_found pkgs expected_pkgs requested = [] := by
        by_contra hne
        obtain ⟨name, hname⟩ := List.exists_mem_of_ne_nil _ hne
        unfold precise_not_found at hname
        rw [List.mem_filter] at hname
        obtain ⟨hexp, hnf⟩ := hname
        rw [decide_eq_true_eq] at hnf
        obtain ⟨pkg, hpkg, hn, hmv⟩ := by
          have hh := h name hexp
          simp only [hsegs] at hh
          exact hh
        exact hnf (mem_pkgs_precise_version_found.mpr ⟨pkg, hpkg, hn, hn ▸ hexp, hmv⟩)
      simp [hempty]
  · intro exc h
    unfold check_precise_version_found at h
    by_cases hempty : precise_not_found pkgs expected_pkgs requested = []
    · simp [hempty] at h
    · simp only [if_neg hempty, Option.some.injEq] at h
      exact ⟨h.symm, hempty⟩

/-! ### Characterization of `_check_higher_version_found` -/

/-- Whether one record contributes a too-high candidate for `name`: its name
must be `name` (and expected), its version must parse, and the version
truncated to the requested segment count must compare greater than the
requested segments. -/
def too_high_candidate (expected_pkgs : List String) (req_release_arr : List Int)
    (name : String) (pkg : PackageRecord) : Option (List Int) :=
  if pkg.name = name ∧ pkg.name ∈ expected_pkgs then
    match parseVersion pkg.version with
    | some version =>
      if pyListLt req_release_arr (version.take req_release_arr.length) = true then
        some version
      else none
    | none => none
  else none

/-- All too-high candidate versions for `name`, in record order. -/
def too_high_candidates (pkgs : List PackageRecord) (expected_pkgs : List String)
    (req_release_arr : List Int) (name : String) : List (List Int) :=
  pkgs.filterMap (too_high_candidate expected_pkgs req_release_arr name)

/-- The recording rule of lines 159-161, per name: replace the stored
version when the new one compares higher (default `[]` when none stored). -/
def record_max (acc : Option (List Int)) (version : List Int) : Option (List Int) :=
  if pyListLt (acc.getD []) version then some version else acc

theorem too_high_candidate_some {expected_pkgs : List String} {req_release_arr : List Int}
    {name : String} {pkg : PackageRecord} {w : List Int}
    (h : too_high_candidate expected_pkgs req_release_arr name pkg = some w) :
    parseVersion pkg.version = some w := by
  unfold too_high_candidate at h
  by_cases hc : pkg.name = name ∧ pkg.name ∈ expected_pkgs
  · rw [if_pos hc] at h
    cases hp : parseVersion pkg.version with
    | none => rw [hp] at h; exact absurd h (by simp)
    | some version =>
      rw [hp] at h
      by_cases ht : pyListLt req_release_arr (version.take req_release_arr.length) = true
      · simp only [ht, if_true, Option.some.injEq] at h
        rw [h]
      · simp [ht] at h
  · rw [if_neg hc] at h
    exact absurd h (by simp)

theorem too_high_candidates_ne_nil {pkgs : List PackageRecord} {expected_pkgs : List String}
    {req_release_arr : List Int} {name : String} {w : List Int}
    (h : w ∈ too_high_candidates pkgs expected_pkgs req_release_arr name) : w ≠ [] := by
  unfold too_high_candidates at h
  rw [List.mem_filterMap] at h
  obtain ⟨pkg, _, hsome⟩ := h
  exact parseVersion_ne_nil (too_high_candidate_some hsome)

theorem higher_fold_ok (req_release_arr : List Int) (expected_pkgs : List String) :
    ∀ (pkgs : List PackageRecord) (m0 : List (String × List Int)),
    (∀ pkg ∈ pkgs, pkg.name ∈ expected_pkgs → (parseVersion pkg.version).isSome) →
    pkgs.foldlM (higher_version_step req_release_arr expected_pkgs) m0
      = .ok (pkgs.foldl (higher_version_step_pure req_release_arr expected_pkgs) m0) := by
  intro pkgs
  induction pkgs with
  | nil => intro m0 _; rfl
  | cons pkg rest ih =>
    intro m0 h
    have hstep : higher_version_step req_release_arr expected_pkgs m0 pkg
        = .ok (higher_version_step_pure req_release_arr expected_pkgs m0 pkg) := by
      unfold higher_version_step higher_version_step_pure
      by_cases hexp : pkg.name ∈ expected_pkgs
      · cases hp : parseVersion pkg.version with
        | none =>
          have := h pkg (by simp) hexp
          rw [hp] at this
          simp at this
        | some version =>
          simp only [hexp, not_true_eq_false, if_false, hp]
          split <;> rfl
      · simp [hexp]
    rw [List.foldlM_cons, hstep, List.foldl_cons]
    show rest.foldlM (higher_version_step req_release_arr expected_pkgs)
        (higher_version_step_pure req_release_arr expected_pkgs m0 pkg) = _
    exact ih _ (fun q hq => h q (List.mem_cons_of_mem _ hq))

theorem dictFind_higher_fold (req_release_arr : List Int) (expected_pkgs : List String) :
    ∀ (pkgs : List PackageRecord) (m0 : List (String × List Int)) (name : String),
    dictFind (pkgs.foldl (higher_version_step_pure req_release_arr expected_pkgs) m0) name
      = (too_high_candidates pkgs expected_pkgs req_release_arr name).foldl record_max
          (dictFind m0 name) := by
  intro pkgs
  induction pkgs with
  | nil => intro m0 name; rfl
  | cons pkg rest ih =>
    intro m0 name
    rw [List.foldl_cons, ih]
    unfold too_high_candidates
    rw [List.filterMap_cons]
    by_cases hexp : pkg.name ∈ expected_pkgs
    · cases hp : parseVersion pkg.version with
      | none =>
        have hcand : too_high_candidate expected_pkgs req_release_arr name pkg = none := by
          unfold too_high_candidate
          split
          · rw [hp]
          · rfl
        rw [hcand]
        have hpure : higher_version_step_pure req_release_arr expected_pkgs m0 pkg = m0 := by
          unfold higher_version_step_pure
          simp [hexp, hp]
        rw [hpure]
      | some version =>
        by_cases hname : pkg.name = name
        · by_cases ht : pyListLt req_release_arr (version.take req_release_arr.length) = true
          · have hcand : too_high_candidate expected_pkgs req_release_arr name pkg
                = some version := by
              unfold too_high_candidate
              rw [if_pos ⟨hname, hexp⟩, hp]
              simp [ht]
            rw [hcand, List.foldl_cons]
            have hpure : dictFind
                (higher_version_step_pure req_release_arr expected_pkgs m0 pkg) name
                = record_max (dictFind m0 name) version := by
              unfold higher_version_step_pure record_max
              simp only [hexp, not_true_eq_false, if_false, hp, ht, Bool.true_and]
              by_cases hh : pyListLt (dictGetD m0 pkg.name) version = true
              · rw [if_pos hh, hname, dictFind_dictSet_self]
                unfold dictGetD at hh
                rw [hname] at hh
                rw [if_pos hh]
              · rw [if_neg hh]
                unfold dictGetD at hh
                rw [hname] at hh
                rw [if_neg hh]
            rw [hpure]
          · have hcand : too_high_candidate expected_pkgs req_release_arr name pkg = none := by
              unfold too_high_candidate
              rw [if_pos ⟨hname, hexp⟩, hp]
              simp [ht]
            rw [hcand]
            have hpure : higher_version_step_pure req_release_arr expected_pkgs m0 pkg
                = m0 := by
              unfold higher_version_step_pure
              simp only [hexp, not_true_eq_false, if_false, hp]
              simp [Bool.not_eq_true] at ht
              simp [ht]
            rw [hpure]
        · have hcand : too_high_candidate expected_pkgs req_release_arr name pkg = none := by
            unfold too_high_candidate
            rw [if_neg (by intro hc; exact hname hc.1)]
          rw [hcand]
          have hpure : dictFind
              (higher_version_step_pure req_release_arr expected_pkgs m0 pkg) name
              = dictFind m0 name := by
            unfold higher_version_step_pure
            simp only [hexp, not_true_eq_false, if_false, hp]
            split
            · exact dictFind_dictSet_ne m0 pkg.name name version hname
            · rfl
          rw [hpure]
    · have hcand : too_high_candidate expected_pkgs req_release_arr name pkg = none := by
        unfold too_high_candidate
        rw [if_neg (by intro hc; exact hexp hc.2)]
      rw [hcand]
      have hpure : higher_version_step_pure req_release_arr expected_pkgs m0 pkg = m0 := by
        unfold higher_version_step_pure
        simp [hexp]
      rw [hpure]

theorem foldl_record_max_some (l : List (List Int)) :
    ∀ a : List Int, ∃ b, l.foldl record_max (some a) = some b := by
  induction l with
  | nil => intro a; exact ⟨a, rfl⟩
  | cons w rest ih =>
    intro a
    rw [List.foldl_cons]
    unfold record_max
    by_cases h : pyListLt (Option.getD (some a) []) w = true
    · rw [if_pos h]; exact ih w
    · rw [if_neg h]; exact ih a

theorem foldl_record_max_ne_none {l : List (List Int)}
    (hne : ∀ w ∈ l, w ≠ []) (h : l ≠ []) :
    ∃ b, l.foldl record_max none = some b := by
  cases l with
  | nil => exact absurd rfl h
  | cons w rest =>
    rw [List.foldl_cons]
    have hw : pyListLt (Option.getD none []) w = true := pyListLt_nil_lt (hne w (by simp))
    unfold record_max
    rw [if_pos hw]
    exact foldl_record_max_some rest w

theorem foldl_record_max_char (l : List (List Int)) (hne : ∀ w ∈ l, w ≠ []) :
    ∀ v : List Int, l.foldl record_max none = some v ↔
      (v ∈ l ∧ ∀ w ∈ l, pyListLt v w = false) := by
  induction l using List.reverseRecOn with
  | nil => intro v; simp
  | append_singleton l' w ih =>
    have hne' : ∀ u ∈ l', u ≠ [] := fun u hu => hne u (by simp [hu])
    have hw : w ≠ [] := hne w (by simp)
    intro v
    rw [List.foldl_append, List.foldl_cons, List.foldl_nil]
    cases hr : l'.foldl record_max none with
    | none =>
      have hl' : l' = [] := by
        by_contra hc
        obtain ⟨b, hb⟩ := foldl_record_max_ne_none hne' hc
        rw [hb] at hr
        exact absurd hr (by simp)
      subst hl'
      have hres : record_max none w = some w := by
        unfold record_max
        rw [if_pos (by simpa using pyListLt_nil_lt hw)]
      rw [hres]
      constructor
      · intro h
        have hv : w = v := Option.some.inj h
        subst hv
        constructor
        · simp
        · intro u hu
          have hu' : u = w := by simpa using hu
          rw [hu']
          exact pyListLt_irrefl w
      · rintro ⟨hv_mem, hv_max⟩
        have hvw : v = w := by simpa using hv_mem
        rw [hvw]
    | some a =>
      obtain ⟨ha_mem, ha_max⟩ := (ih hne' a).mp hr
      by_cases haw : pyListLt a w = true
      · have hres : record_max (some a) w = some w := by
          unfold record_max
          simp [haw]
        rw [hres]
        constructor
        · intro h
          have hv : w = v := Option.some.inj h
          subst hv
          constructor
          · simp
          · intro u hu
            rcases List.mem_append.mp hu with hu' | hu'
            · by_contra hc
              rw [Bool.not_eq_false] at hc
              have htr := pyListLt_trans a w u haw hc
              rw [ha_max u hu'] at htr
              exact absurd htr (by simp)
            · have huw : u = w := by simpa using hu'
              rw [huw]
              exact pyListLt_irrefl w
        · rintro ⟨hv_mem, hv_max⟩
          rcases List.mem_append.mp hv_mem with hv' | hv'
          · exfalso
            have h1 : pyListLt v a = false := hv_max a (List.mem_append.mpr (.inl ha_mem))
            have h2 : pyListLt a v = false := ha_max v hv'
            have hva := pyListLt_conn v a h1 h2
            have h3 : pyListLt v w = false := hv_max w (List.mem_append.mpr (.inr (by simp)))
            rw [hva] at h3
            rw [h3] at haw
            exact absurd haw (by simp)
          · have hvw : v = w := by simpa using hv'
            rw [hvw]
      · have hres : record_max (some a) w = some a := by
          unfold record_max
          simp [haw]
        rw [hres]
        have haw' : pyListLt a w = false := by simpa using haw
        constructor
        · intro h
          have hv : a = v := Option.some.inj h
          subst hv
          constructor
          · exact List.mem_append.mpr (.inl ha_mem)
          · intro u hu
            rcases List.mem_append.mp hu with hu' | hu'
            · exact ha_max u hu'
            · have huw : u = w := by simpa using hu'
              rw [huw]
              exact haw'
        · rintro ⟨hv_mem, hv_max⟩
          rcases List.mem_append.mp hv_mem with hv' | hv'
          · have h1 : pyListLt v a = false := hv_max a (List.mem_append.mpr (.inl ha_mem))
            have h2 : pyListLt a v = false := ha_max v hv'
            exact congrArg some (pyListLt_conn v a h1 h2).symm
          · have hvw : v = w := by simpa using hv'
            have h1 : pyListLt v a = false := hv_max a (List.mem_append.mpr (.inl ha_mem))
            have hva : pyListLt a v = false := by rw [hvw]; exact haw'
            exact congrArg some (pyListLt_conn a v hva h1)

theorem check_higher_eq_of_parse {requested : String} {req_release_arr : List Int}
    (hreq : parseVersion requested = some req_release_arr)
    (pkgs : List PackageRecord) (expected_pkgs : List String) :
    check_higher_version_found pkgs expected_pkgs requested
      = match higher_version_for_pkg pkgs expected_pkgs req_release_arr with
        | .error e => .error e
        | .ok m =>
          if m = [] then .ok none
          else .ok (some (.foundHigherVersion requested (m.map higher_found_entry))) := by
  unfold check_higher_version_found
  rw [hreq]

/-- C2: the higher-version checker records, per expected package name, the
highest full integer-segment version among those whose truncation to the
requested segment count is strictly greater than the requested segments, and
when any is recorded it raises `FoundHigherVersion` listing each offending
name concatenated with that highest version dot-joined; for requested "3.4"
with versions "3.4.1" and "3.5.0" available for one package the reported
offending version is "3.5.0", not "3.4.1". -/
theorem higher_version_check_records_highest
    (pkgs : List PackageRecord) (expected_pkgs : List String) (requested : String)
    (req_release_arr : List Int)
    (hreq : parseVersion requested = some req_release_arr)
    (hparse : ∀ pkg ∈ pkgs, pkg.name ∈ expected_pkgs → (parseVersion pkg.version).isSome) :
    ∃ m, higher_version_for_pkg pkgs expected_pkgs req_release_arr = .ok m
      ∧ (∀ name v, dictFind m name = some v ↔
          (v ∈ too_high_candidates pkgs expected_pkgs req_release_arr name
            ∧ ∀ w ∈ too_high_candidates pkgs expected_pkgs req_release_arr name,
                pyListLt v w = false))
      ∧ check_higher_version_found pkgs expected_pkgs requested
          = .ok (if m = [] then none
              else some (.foundHigherVersion requested (m.map higher_found_entry)))
      ∧ (check_higher_version_found pkgs expected_pkgs requested = .ok none ↔
          ∀ name, too_high_candidates pkgs expected_pkgs req_release_arr name = [])
      ∧ check_higher_version_found [⟨"pkg", "3.4.1"⟩, ⟨"pkg", "3.5.0"⟩] ["pkg"] "3.4"
          = .ok (some (.foundHigherVersion "3.4" ["pkg-3.5.0"])) := by
  have hfold := higher_fold_ok req_release_arr expected_pkgs pkgs [] hparse
  set mpure := pkgs.foldl (higher_version_step_pure req_release_arr expected_pkgs) []
    with hmpure
  have hvp : higher_version_for_pkg pkgs expected_pkgs req_release_arr = .ok mpure := hfold
  have hchar : ∀ name v, dictFind mpure name = some v ↔
      (v ∈ too_high_candidates pkgs expected_pkgs req_release_arr name
        ∧ ∀ w ∈ too_high_candidates pkgs expected_pkgs req_release_arr name,
            pyListLt v w = false) := by
    intro name v
    have hfind := dictFind_higher_fold req_release_arr expected_pkgs pkgs [] name
    rw [hmpure, hfind]
    exact foldl_record_max_char _ (fun w hw => too_high_candidates_ne_nil hw) v
  have hcheck : check_higher_version_found pkgs expected_pkgs requested
      = .ok (if mpure = [] then none
          else some (.foundHigherVersion requested (mpure.map higher_found_entry))) := by
    rw [check_higher_eq_of_parse hreq, hvp]
    by_cases hm : mpure = [] <;> simp [hm]
  refine ⟨mpure, hvp, hchar, hcheck, ?_, rfl⟩
  rw [hcheck]
  constructor
  · intro h name
    have hm : mpure = [] := by
      by_cases hm : mpure = []
      · exact hm
      · rw [if_neg hm] at h
        simp at h
    by_contra hc
    obtain ⟨b, hb⟩ := foldl_record_max_ne_none
      (fun w hw => too_high_candidates_ne_nil hw) hc
    have hfmp : dictFind mpure name = some b := by
      rw [hmpure, dictFind_higher_fold req_release_arr expected_pkgs pkgs [] name]
      exact hb
    rw [hm] at hfmp
    exact absurd hfmp (by simp [dictFind])
  · intro h
    have hm : mpure = [] := by
      cases hme : mpure with
      | nil => rfl
      | cons p rest =>
        exfalso
        obtain ⟨k, val⟩ := p
        have hfind : dictFind mpure k = some val := by
          rw [hme]
          simp [dictFind]
        obtain ⟨hmem, _⟩ := (hchar k val).mp hfind
        rw [h k] at hmem
        exact absurd hmem (by simp)
    rw [if_pos hm]

/-! ### Characterization of `_check_multi_minor_release` -/

/-- Updating one name's entry of `pkgs_by_name_version` with one more minor
release, as seen from that name alone. -/
def minors_fold (acc : Option (List String)) (minor : String) : Option (List String) :=
  match acc with
  | none => some [minor]
  | some minors => some (insertIfAbsent minors minor)

theorem mem_insertIfAbsent {l : List String} {x y : String} :
    x ∈ insertIfAbsent l y ↔ x ∈ l ∨ x = y := by
  unfold insertIfAbsent
  by_cases h : y ∈ l
  · rw [if_pos h]
    constructor
    · exact .inl
    · rintro (hx | rfl)
      · exact hx
      · exact h
  · rw [if_neg h]
    simp

theorem nodup_insertIfAbsent {l : List String} (h : l.Nodup) (y : String) :
    (insertIfAbsent l y).Nodup := by
  unfold insertIfAbsent
  by_cases hy : y ∈ l
  · rw [if_pos hy]
    exact h
  · rw [if_neg hy]
    simp [List.nodup_append, h, hy]

theorem mem_foldl_insertIfAbsent :
    ∀ (ml : List String) (acc : List String) (x : String),
    x ∈ ml.foldl insertIfAbsent acc ↔ x ∈ acc ∨ x ∈ ml := by
  intro ml
  induction ml with
  | nil => intro acc x; simp
  | cons y rest ih =>
    intro acc x
    rw [List.foldl_cons, ih, mem_insertIfAbsent]
    simp only [List.mem_cons]
    tauto

theorem nodup_foldl_insertIfAbsent :
    ∀ (ml : List String) (acc : List String), acc.Nodup →
    (ml.foldl insertIfAbsent acc).Nodup := by
  intro ml
  induction ml with
  | nil => intro acc h; exact h
  | cons y rest ih =>
    intro acc h
    rw [List.foldl_cons]
    exact ih _ (nodup_insertIfAbsent h y)

theorem foldl_minors_fold_some :
    ∀ (ml : List String) (acc : List String),
    ml.foldl minors_fold (some acc) = some (ml.foldl insertIfAbsent acc) := by
  intro ml
  induction ml with
  | nil => intro acc; rfl
  | cons y rest ih =>
    intro acc
    rw [List.foldl_cons, List.foldl_cons]
    exact ih _

theorem dictFind_multi_fold :
    ∀ (pkgs : List PackageRecord) (m0 : List (String × List String)) (name : String),
    dictFind (pkgs.foldl multi_minor_step m0) name
      = ((pkgs.filter (fun pkg => pkg.name == name)).map
            (fun pkg => minor_release pkg.version)).foldl minors_fold (dictFind m0 name) := by
  intro pkgs
  induction pkgs with
  | nil => intro m0 name; rfl
  | cons pkg rest ih =>
    intro m0 name
    rw [List.foldl_cons, ih, List.filter_cons]
    by_cases hname : pkg.name = name
    · rw [if_pos (by simp [hname]), List.map_cons, List.foldl_cons]
      have hstep : dictFind (multi_minor_step m0 pkg) name
          = minors_fold (dictFind m0 name) (minor_release pkg.version) := by
        subst hname
        unfold multi_minor_step minors_fold
        cases hf : dictFind m0 pkg.name with
        | none => rw [dictFind_dictSet_self]
        | some minors => rw [dictFind_dictSet_self]
      rw [hstep]
    · rw [if_neg (by simp [hname])]
      have hstep : dictFind (multi_minor_step m0 pkg) name = dictFind m0 name := by
        unfold multi_minor_step
        cases hf : dictFind m0 pkg.name with
        | none => exact dictFind_dictSet_ne m0 pkg.name name _ hname
        | some minors => exact dictFind_dictSet_ne m0 pkg.name name _ hname
      rw [hstep]

theorem nodup_one_lt_length {d : List String} (hd : d.Nodup) :
    1 < d.length ↔ ∃ a ∈ d, ∃ b ∈ d, a ≠ b := by
  cases d with
  | nil => simp
  | cons x rest =>
    cases rest with
    | nil => simp
    | cons y rest2 =>
      simp only [List.length_cons]
      constructor
      · intro _
        refine ⟨x, by simp, y, by simp, ?_⟩
        intro hxy
        subst hxy
        simp [List.nodup_cons] at hd
      · intro _
        omega

theorem multi_minors_list_spec (pkgs : List PackageRecord) (name : String) :
    dictFind (pkgs_by_name_version pkgs) name
      = ((pkgs.filter (fun pkg => pkg.name == name)).map
            (fun pkg => minor_release pkg.version)).foldl minors_fold none := by
  unfold pkgs_by_name_version
  rw [dictFind_multi_fold pkgs [] name]
  rfl

theorem multi_found_pred_iff (pkgs : List PackageRecord) (name : String) :
    (match dictFind (pkgs_by_name_version pkgs) name with
      | some minors => decide (minors.length > 1)
      | none => false) = true
    ↔ ∃ p ∈ pkgs, ∃ q ∈ pkgs, p.name = name ∧ q.name = name ∧
        minor_release p.version ≠ minor_release q.version := by
  have hmemml : ∀ a, (a ∈ (pkgs.filter (fun pkg => pkg.name == name)).map
        (fun pkg => minor_release pkg.version)
      ↔ ∃ p ∈ pkgs, p.name = name ∧ minor_release p.version = a) := by
    intro a
    simp only [List.mem_map, List.mem_filter, beq_iff_eq]
    tauto
  rw [multi_minors_list_spec pkgs name]
  cases hml : (pkgs.filter (fun pkg => pkg.name == name)).map
      (fun pkg => minor_release pkg.version) with
  | nil =>
    simp only [List.foldl_nil]
    constructor
    · intro h
      exact absurd h (by simp)
    · rintro ⟨p, hp, _, _, hpn, _, _⟩
      have hmem : minor_release p.version ∈ (pkgs.filter (fun pkg => pkg.name == name)).map
          (fun pkg => minor_release pkg.version) := (hmemml _).mpr ⟨p, hp, hpn, rfl⟩
      rw [hml] at hmem
      exact absurd hmem (by simp)
  | cons m rest =>
    simp only [hml] at hmemml
    rw [List.foldl_cons]
    have h1 : minors_fold none m = some [m] := rfl
    rw [h1, foldl_minors_fold_some]
    have hdn : (rest.foldl insertIfAbsent [m]).Nodup :=
      nodup_foldl_insertIfAbsent rest [m] (by simp)
    have hdm : ∀ x, x ∈ rest.foldl insertIfAbsent [m] ↔ x ∈ m :: rest := by
      intro x
      rw [mem_foldl_insertIfAbsent]
      simp
    have h2 : (match some (rest.foldl insertIfAbsent [m]) with
        | some minors => decide (minors.length > 1)
        | none => false) = decide (1 < (rest.foldl insertIfAbsent [m]).length) := rfl
    rw [h2, decide_eq_true_eq, nodup_one_lt_length hdn]
    constructor
    · rintro ⟨a, ha, b, hb, hab⟩
      obtain ⟨p, hp, hpn, hpm⟩ := (hmemml a).mp ((hdm a).mp ha)
      obtain ⟨q, hq, hqn, hqm⟩ := (hmemml b).mp ((hdm b).mp hb)
      exact ⟨p, hp, q, hq, hpn, hqn, by rw [hpm, hqm]; exact hab⟩
    · rintro ⟨p, hp, q, hq, hpn, hqn, hne⟩
      refine ⟨minor_release p.version, ?_, minor_release q.version, ?_, hne⟩
      · exact (hdm _).mpr ((hmemml _).mpr ⟨p, hp, hpn, rfl⟩)
      · exact (hdm _).mpr ((hmemml _).mpr ⟨q, hq, hqn, rfl⟩)

theorem mem_multi_found {pkgs : List PackageRecord} {expected_pkgs : List String}
    {name : String} :
    name ∈ multi_found pkgs expected_pkgs ↔
      name ∈ expected_pkgs ∧ ∃ p ∈ pkgs, ∃ q ∈ pkgs, p.name = name ∧ q.name = name ∧
        minor_release p.version ≠ minor_release q.version := by
  unfold multi_found
  rw [List.mem_filter]
  constructor
  · rintro ⟨hexp, hpred⟩
    exact ⟨hexp, (multi_found_pred_iff pkgs name).mp hpred⟩
  · rintro ⟨hexp, hex⟩
    exact ⟨hexp, (multi_found_pred_iff pkgs name).mpr hex⟩

/-- C3: the higher-version checker compares versions as lists of integer
segments, not as character strings: for requested "3.9" and available
"3.10.0" the truncated version [3, 10] is strictly greater than [3, 9]
(10 > 9) and the package is reported as too high, even though the character
string "3.10" orders below "3.9". -/
theorem higher_version_numeric_comparison :
    check_higher_version_found [⟨"origin", "3.10.0"⟩] ["origin"] "3.9"
      = .ok (some (.foundHigherVersion "3.9" ["origin-3.10.0"]))
    ∧ parseVersion "3.9" = some [3, 9]
    ∧ parseVersion "3.10.0" = some [3, 10, 0]
    ∧ pyListLt [3, 9] (List.take 2 [3, 10, 0]) = true
    ∧ "3.10".toList < "3.9".toList :=
  ⟨rfl, rfl, rfl, rfl, by decide⟩

/-- Witness for C2: the characterization applied to the claim's own example
(requested "3.4", versions "3.4.1" and "3.5.0" for one package). -/
theorem higher_version_check_records_highest_witness :
    parseVersion "3.4" = some [3, 4]
    ∧ (∃ m, higher_version_for_pkg [⟨"pkg", "3.4.1"⟩, ⟨"pkg", "3.5.0"⟩] ["pkg"] [3, 4]
          = .ok m
        ∧ (∀ name v, dictFind m name = some v ↔
            (v ∈ too_high_candidates [⟨"pkg", "3.4.1"⟩, ⟨"pkg", "3.5.0"⟩] ["pkg"]
                [3, 4] name
              ∧ ∀ w ∈ too_high_candidates [⟨"pkg", "3.4.1"⟩, ⟨"pkg", "3.5.0"⟩] ["pkg"]
                  [3, 4] name, pyListLt v w = false))
        ∧ check_higher_version_found [⟨"pkg", "3.4.1"⟩, ⟨"pkg", "3.5.0"⟩] ["pkg"] "3.4"
            = .ok (if m = [] then none
                else some (.foundHigherVersion "3.4" (m.map higher_found_entry)))
        ∧ (check_higher_version_found [⟨"pkg", "3.4.1"⟩, ⟨"pkg", "3.5.0"⟩] ["pkg"] "3.4"
              = .ok none ↔
            ∀ name, too_high_candidates [⟨"pkg", "3.4.1"⟩, ⟨"pkg", "3.5.0"⟩] ["pkg"]
                [3, 4] name = [])
        ∧ check_higher_version_found [⟨"pkg", "3.4.1"⟩, ⟨"pkg", "3.5.0"⟩] ["pkg"] "3.4"
            = .ok (some (.foundHigherVersion "3.4" ["pkg-3.5.0"]))) :=
  ⟨rfl, higher_version_check_records_highest
    [⟨"pkg", "3.4.1"⟩, ⟨"pkg", "3.5.0"⟩] ["pkg"] "3.4" [3, 4] rfl (by decide)⟩

/-- C7: the multi-minor-release check runs iff the deployment type equals
"openshift-enterprise"; in that case a package whose available versions span
more than one distinct major.minor prefix causes `FoundMultiRelease` listing
every such expected name, while under any other deployment type the same
input does not fail because the check is skipped. -/
theorem multi_release_check_enterprise_only :
    (∀ (pkgs : List PackageRecord) (expected_pkgs : List String) (deployment_type : String),
        deployment_type ∉ ["openshift-enterprise"] →
        multi_release_step pkgs expected_pkgs deployment_type = none)
    ∧ (∀ (pkgs : List PackageRecord) (expected_pkgs : List String),
        multi_release_step pkgs expected_pkgs "openshift-enterprise"
          = check_multi_minor_release pkgs expected_pkgs)
    ∧ (∀ (pkgs : List PackageRecord) (expected_pkgs : List String) (name : String),
        name ∈ multi_found pkgs expected_pkgs ↔
          name ∈ expected_pkgs ∧ ∃ p ∈ pkgs, ∃ q ∈ pkgs, p.name = name ∧ q.name = name ∧
            minor_release p.version ≠ minor_release q.version)
    ∧ (∀ (pkgs : List PackageRecord) (expected_pkgs : List String),
        check_multi_minor_release pkgs expected_pkgs
          = if multi_found pkgs expected_pkgs = [] then none
            else some (.foundMultiRelease (multi_found pkgs expected_pkgs)))
    ∧ runMain ⟨"", "openshift-enterprise", "origin"⟩
        (.ok [⟨"origin", "3.4.0"⟩, ⟨"origin", "3.5.0"⟩])
        = .failed (exceptionMessage (.foundMultiRelease ["origin"]))
    ∧ runMain ⟨"", "origin", "origin"⟩ (.ok [⟨"origin", "3.4.0"⟩, ⟨"origin", "3.5.0"⟩])
        = .exited false := by
  refine ⟨?_, fun _ _ => rfl, fun _ _ _ => mem_multi_found, fun _ _ => rfl, rfl, rfl⟩
  intro pkgs expected_pkgs deployment_type h
  unfold multi_release_step
  rw [if_neg h]

/-- Witness for C7: a non-enterprise deployment type skips the check. -/
theorem multi_release_check_enterprise_only_witness :
    multi_release_step [] [] "origin" = none :=
  multi_release_check_enterprise_only.1 [] [] "origin" (by decide)

theorem runMain_ok (params : ModuleParams) (pkgs : List PackageRecord)
    (hpfx : params.rpm_pfx ≠ "") :
    runMain params (.ok pkgs)
      = match run_checks pkgs (expected_pkgs_of params.rpm_pfx)
            params.requested_openshift_release params.openshift_deployment_type with
        | .error err => .crashed err
        | .ok (some exc) => .failed (exceptionMessage exc)
        | .ok none => .exited false := by
  unfold runMain
  rw [if_neg hpfx]

/-- C5: any single checker violation fails the whole task; each check's
outcome is independent of the other checks' outcomes (the iff splits into one
clause per checker), except that both version checks are skipped when no
release was requested; the entrypoint reports the first raised failure and
exits successfully only when no invoked checker raises. -/
theorem single_violation_fails_task (params : ModuleParams) (pkgs : List PackageRecord)
    (hpfx : params.rpm_pfx ≠ "") :
    (runMain params (.ok pkgs) = .exited false ↔
       ((params.requested_openshift_release ≠ "" →
          check_precise_version_found pkgs (expected_pkgs_of params.rpm_pfx)
              params.requested_openshift_release = none
            ∧ check_higher_version_found pkgs (expected_pkgs_of params.rpm_pfx)
                params.requested_openshift_release = .ok none)
        ∧ (params.openshift_deployment_type ∈ ["openshift-enterprise"] →
            check_multi_minor_release pkgs (expected_pkgs_of params.rpm_pfx) = none)))
    ∧ (∀ exc, params.requested_openshift_release ≠ "" →
        check_precise_version_found pkgs (expected_pkgs_of params.rpm_pfx)
            params.requested_openshift_release = some exc →
        runMain params (.ok pkgs) = .failed (exceptionMessage exc))
    ∧ (∀ exc, params.requested_openshift_release ≠ "" →
        check_precise_version_found pkgs (expected_pkgs_of params.rpm_pfx)
            params.requested_openshift_release = none →
        check_higher_version_found pkgs (expected_pkgs_of params.rpm_pfx)
            params.requested_openshift_release = .ok (some exc) →
        runMain params (.ok pkgs) = .failed (exceptionMessage exc))
    ∧ (∀ exc, (params.requested_openshift_release ≠ "" →
          check_precise_version_found pkgs (expected_pkgs_of params.rpm_pfx)
              params.requested_openshift_release = none
            ∧ check_higher_version_found pkgs (expected_pkgs_of params.rpm_pfx)
                params.requested_openshift_release = .ok none) →
        params.openshift_deployment_type ∈ ["openshift-enterprise"] →
        check_multi_minor_release pkgs (expected_pkgs_of params.rpm_pfx) = some exc →
        runMain params (.ok pkgs) = .failed (exceptionMessage exc)) := by
  have hrm := runMain_ok params pkgs hpfx
  by_cases hreq : params.requested_openshift_release = ""
  · have hrc : run_checks pkgs (expected_pkgs_of params.rpm_pfx)
        params.requested_openshift_release params.openshift_deployment_type
        = .ok (multi_release_step pkgs (expected_pkgs_of params.rpm_pfx)
            params.openshift_deployment_type) := by
      unfold run_checks
      rw [if_neg (by simp [hreq])]
    refine ⟨?_, ?_, ?_, ?_⟩
    · rw [hrm, hrc]
      by_cases hdep : params.openshift_deployment_type ∈ ["openshift-enterprise"]
      · have hdep' : params.openshift_deployment_type = "openshift-enterprise" := by
          simpa using hdep
        have hms : multi_release_step pkgs (expected_pkgs_of params.rpm_pfx)
            params.openshift_deployment_type
            = check_multi_minor_release pkgs (expected_pkgs_of params.rpm_pfx) := by
          unfold multi_release_step
          rw [if_pos hdep]
        rw [hms]
        cases hmc : check_multi_minor_release pkgs (expected_pkgs_of params.rpm_pfx) with
        | none => simp [hreq, hdep']
        | some exc => simp [hreq, hdep', hmc]
      · have hdep' : ¬ params.openshift_deployment_type = "openshift-enterprise" := by
          simpa using hdep
        have hms : multi_release_step pkgs (expected_pkgs_of params.rpm_pfx)
            params.openshift_deployment_type = none := by
          unfold multi_release_step
          rw [if_neg hdep]
        rw [hms]
        simp [hreq, hdep']
    · intro exc hne
      exact absurd hreq hne
    · intro exc hne
      exact absurd hreq hne
    · intro exc _ hdep hmc
      rw [hrm, hrc]
      have hms : multi_release_step pkgs (expected_pkgs_of params.rpm_pfx)
          params.openshift_deployment_type = some exc := by
        unfold multi_release_step
        rw [if_pos hdep, hmc]
      rw [hms]
  · have hreqne : params.requested_openshift_release ≠ "" := hreq
    have hrc0 : run_checks pkgs (expected_pkgs_of params.rpm_pfx)
        params.requested_openshift_release params.openshift_deployment_type
        = match check_precise_version_found pkgs (expected_pkgs_of params.rpm_pfx)
              params.requested_openshift_release with
          | some exc => .ok (some exc)
          | none =>
            match check_higher_version_found pkgs (expected_pkgs_of params.rpm_pfx)
                params.requested_openshift_release with
            | .error e => .error e
            | .ok (some exc) => .ok (some exc)
            | .ok none => .ok (multi_release_step pkgs (expected_pkgs_of params.rpm_pfx)
                params.openshift_deployment_type) := by
      unfold run_checks
      rw [if_pos hreqne]
    cases hprec : check_precise_version_found pkgs (expected_pkgs_of params.rpm_pfx)
        params.requested_openshift_release with
    | some e =>
      have hrc : run_checks pkgs (expected_pkgs_of params.rpm_pfx)
          params.requested_openshift_release params.openshift_deployment_type
          = .ok (some e) := by
        rw [hrc0, hprec]
      refine ⟨?_, ?_, ?_, ?_⟩
      · rw [hrm, hrc]
        simp [hreqne]
      · intro exc hne hp
        injection hp with hp
        rw [hrm, hrc, ← hp]
      · intro exc hne hp
        exact absurd hp (by simp)
      · intro exc hnf _ _
        exact absurd (hnf hreqne).1 (by simp)
    | none =>
      cases hhigh : check_higher_version_found pkgs (expected_pkgs_of params.rpm_pfx)
          params.requested_openshift_release with
      | error err =>
        have hrc : run_checks pkgs (expected_pkgs_of params.rpm_pfx)
            params.requested_openshift_release params.openshift_deployment_type
            = .error err := by
          rw [hrc0, hprec, hhigh]
        refine ⟨?_, ?_, ?_, ?_⟩
        · rw [hrm, hrc]
          simp [hreqne]
        · intro exc hne hp
          exact absurd hp (by simp)
        · intro exc hne _ hh
          exact absurd hh (by simp)
        · intro exc hnf _ _
          exact absurd (hnf hreqne).2 (by simp)
      | ok oexc =>
        cases oexc with
        | some e =>
          have hrc : run_checks pkgs (expected_pkgs_of params.rpm_pfx)
              params.requested_openshift_release params.openshift_deployment_type
              = .ok (some e) := by
            rw [hrc0, hprec, hhigh]
          refine ⟨?_, ?_, ?_, ?_⟩
          · rw [hrm, hrc]
            simp [hreqne]
          · intro exc hne hp
            exact absurd hp (by simp)
          · intro exc hne _ hh
            have he : e = exc := by
              simpa using hh
            rw [hrm, hrc, ← he]
          · intro exc hnf _ _
            exact absurd (hnf hreqne).2 (by simp)
        | none =>
          have hrc : run_checks pkgs (expected_pkgs_of params.rpm_pfx)
              params.requested_openshift_release params.openshift_deployment_type
              = .ok (multi_release_step pkgs (expected_pkgs_of params.rpm_pfx)
                  params.openshift_deployment_type) := by
            rw [hrc0, hprec, hhigh]
          refine ⟨?_, ?_, ?_, ?_⟩
          · rw [hrm, hrc]
            by_cases hdep : params.openshift_deployment_type ∈ ["openshift-enterprise"]
            · have hdep' : params.openshift_deployment_type = "openshift-enterprise" := by
                simpa using hdep
              have hms : multi_release_step pkgs (expected_pkgs_of params.rpm_pfx)
                  params.openshift_deployment_type
                  = check_multi_minor_release pkgs (expected_pkgs_of params.rpm_pfx) := by
                unfold multi_release_step
                rw [if_pos hdep]
              rw [hms]
              cases hmc : check_multi_minor_release pkgs (expected_pkgs_of params.rpm_pfx) with
              | none => simp [hreqne, hdep']
              | some exc => simp [hreqne, hdep', hmc]
            · have hdep' : ¬ params.openshift_deployment_type = "openshift-enterprise" := by
                simpa using hdep
              have hms : multi_release_step pkgs (expected_pkgs_of params.rpm_pfx)
                  params.openshift_deployment_type = none := by
                unfold multi_release_step
                rw [if_neg hdep]
              rw [hms]
              simp [hreqne, hdep']
          · intro exc hne hp
            exact absurd hp (by simp)
          · intro exc hne _ hh
            exact absurd hh (by simp)
          · intro exc _ hdep hmc
            rw [hrm, hrc]
            have hms : multi_release_step pkgs (expected_pkgs_of params.rpm_pfx)
                params.openshift_deployment_type = some exc := by
              unfold multi_release_step
              rw [if_pos hdep, hmc]
            rw [hms]

/-- Witness for C5: with no requested release, a non-enterprise type and a
non-empty rpm name base, the task exits successfully. -/
theorem single_violation_fails_task_witness :
    runMain ⟨"", "origin", "origin"⟩ (.ok []) = .exited false :=
  (single_violation_fails_task ⟨"", "origin", "origin"⟩ [] (by decide)).1.mpr
    ⟨fun h => absurd rfl h, fun h => absurd h (by decide)⟩

/-- C8: with an empty requested release neither version checker runs — the
outcome is decided by the multi-minor step alone — and the task succeeds iff
the multi-minor check passes whenever the enterprise type selects it. -/
theorem empty_release_skips_version_checks (params : ModuleParams)
    (pkgs : List PackageRecord)
    (hreq : params.requested_openshift_release = "")
    (hpfx : params.rpm_pfx ≠ "") :
    runMain params (.ok pkgs)
      = (match multi_release_step pkgs (expected_pkgs_of params.rpm_pfx)
            params.openshift_deployment_type with
         | some exc => .failed (exceptionMessage exc)
         | none => .exited false)
    ∧ (runMain params (.ok pkgs) = .exited false ↔
        (params.openshift_deployment_type ∈ ["openshift-enterprise"] →
          check_multi_minor_release pkgs (expected_pkgs_of params.rpm_pfx) = none)) := by
  have hrm := runMain_ok params pkgs hpfx
  have hrc : run_checks pkgs (expected_pkgs_of params.rpm_pfx)
      params.requested_openshift_release params.openshift_deployment_type
      = .ok (multi_release_step pkgs (expected_pkgs_of params.rpm_pfx)
          params.openshift_deployment_type) := by
    unfold run_checks
    rw [if_neg (by simp [hreq])]
  constructor
  · rw [hrm, hrc]
    cases multi_release_step pkgs (expected_pkgs_of params.rpm_pfx)
        params.openshift_deployment_type with
    | some exc => rfl
    | none => rfl
  · rw [hrm, hrc]
    by_cases hdep : params.openshift_deployment_type ∈ ["openshift-enterprise"]
    · have hdep' : params.openshift_deployment_type = "openshift-enterprise" := by
        simpa using hdep
      have hms : multi_release_step pkgs (expected_pkgs_of params.rpm_pfx)
          params.openshift_deployment_type
          = check_multi_minor_release pkgs (expected_pkgs_of params.rpm_pfx) := by
        unfold multi_release_step
        rw [if_pos hdep]
      rw [hms]
      cases hmc : check_multi_minor_release pkgs (expected_pkgs_of params.rpm_pfx) with
      | none => simp [hdep']
      | some exc => simp [hdep', hmc]
    · have hdep' : ¬ params.openshift_deployment_type = "openshift-enterprise" := by
        simpa using hdep
      have hms : multi_release_step pkgs (expected_pkgs_of params.rpm_pfx)
          params.openshift_deployment_type = none := by
        unfold multi_release_step
        rw [if_neg hdep]
      rw [hms]
      simp [hdep']

/-- Witness for C8: empty release, non-enterprise type, one available
package — the task exits successfully. -/
theorem empty_release_skips_version_checks_witness :
    runMain ⟨"", "origin", "origin"⟩ (.ok [⟨"origin", "3.4.0"⟩]) = .exited false :=
  (empty_release_skips_version_checks ⟨"", "origin", "origin"⟩ [⟨"origin", "3.4.0"⟩]
    rfl (by decide)).2.mpr (fun h => absurd h (by decide))

/-- C4 counterexample: at a concrete failing input the task's failure outcome
is exactly a message string — `fail_json` receives only `msg=str(excinfo)` —
so the structured list of offending names reaches the outcome only embedded
in the message text, while it does exist on the exception (`problem_pkgs`). -/
theorem task_failure_carries_only_message_text :
    runMain ⟨"3.4", "origin", "origin"⟩ (.ok [])
      = .failed ("Not all of the required packages are available at requested version 3.4:\n  origin\n  origin-master\n  origin-node\nPlease check your subscriptions and enabled repositories.")
    ∧ problemPkgs (.preciseVersionNotFound "3.4" ["origin", "origin-master", "origin-node"])
        = some ["origin", "origin-master", "origin-node"]
    ∧ (∀ o : Outcome, o = runMain ⟨"3.4", "origin", "origin"⟩ (.ok []) →
        ∃ msg : String, o = .failed msg) := by
  refine ⟨rfl, rfl, ?_⟩
  intro o ho
  refine ⟨"Not all of the required packages are available at requested version 3.4:\n  origin\n  origin-master\n  origin-node\nPlease check your subscriptions and enabled repositories.", ?_⟩
  rw [ho]
  rfl

/-- C4 (amended): the three checker-specific exceptions carry the structured
list of offending package names in their `problem_pkgs` attribute, but the
entrypoint's failure outcome exposes only the exception's message string. -/
theorem exceptions_carry_problem_pkgs :
    (∀ (requested_release : String) (not_found : List String),
        problemPkgs (.preciseVersionNotFound requested_release not_found) = some not_found)
    ∧ (∀ (requested_release : String) (higher_found : List String),
        problemPkgs (.foundHigherVersion requested_release higher_found) = some higher_found)
    ∧ (∀ multi_names : List String,
        problemPkgs (.foundMultiRelease multi_names) = some multi_names)
    ∧ (∀ excinfo : String, problemPkgs (.retrievalFail excinfo) = none)
    ∧ (∀ (params : ModuleParams) (pkgs : List PackageRecord) (exc : AosVersionException),
        params.rpm_pfx ≠ "" →
        run_checks pkgs (expected_pkgs_of params.rpm_pfx)
            params.requested_openshift_release params.openshift_deployment_type
          = .ok (some exc) →
        runMain params (.ok pkgs) = .failed (exceptionMessage exc)) := by
  refine ⟨fun _ _ => rfl, fun _ _ => rfl, fun _ => rfl, fun _ => rfl, ?_⟩
  intro params pkgs exc hpfx hrc
  rw [runMain_ok params pkgs hpfx, hrc]

/-- Witness for the amended C4: applying the entrypoint clause at a concrete
failing input. -/
theorem exceptions_carry_problem_pkgs_witness :
    runMain ⟨"3.4", "origin", "origin"⟩ (.ok [])
      = .failed (exceptionMessage (.preciseVersionNotFound "3.4"
          ["origin", "origin-master", "origin-node"])) :=
  exceptions_carry_problem_pkgs.2.2.2.2 ⟨"3.4", "origin", "origin"⟩ []
    (.preciseVersionNotFound "3.4" ["origin", "origin-master", "origin-node"])
    (by decide) rfl

/-! ### Malformed version segments (C10) -/

theorem parseSegments_none_of_mem {segs : List String} {seg : String}
    (hmem : seg ∈ segs) (hbad : parseIntSeg seg = none) : parseSegments segs = none := by
  induction segs with
  | nil => simp at hmem
  | cons s rest ih =>
    rcases List.mem_cons.mp hmem with rfl | hmem'
    · unfold parseSegments
      rw [hbad]
    · unfold parseSegments
      cases hs : parseIntSeg s with
      | none => rfl
      | some i => rw [ih hmem']

theorem parseVersion_none_of_bad_segment {s seg : String}
    (hmem : seg ∈ pySplitDot s) (hbad : parseIntSeg seg = none) :
    parseVersion s = none := by
  unfold parseVersion
  exact parseSegments_none_of_mem hmem hbad

theorem higher_fold_error (req_release_arr : List Int) (expected_pkgs : List String) :
    ∀ (pkgs : List PackageRecord) (m0 : List (String × List Int)),
    (∃ pkg ∈ pkgs, pkg.name ∈ expected_pkgs ∧ parseVersion pkg.version = none) →
    ∃ err, pkgs.foldlM (higher_version_step req_release_arr expected_pkgs) m0
      = .error err := by
  intro pkgs
  induction pkgs with
  | nil =>
    intro m0 h
    obtain ⟨pkg, hmem, _⟩ := h
    simp at hmem
  | cons pkg rest ih =>
    intro m0 h
    rw [List.foldlM_cons]
    cases hstep : higher_version_step req_release_arr expected_pkgs m0 pkg with
    | error err => exact ⟨err, rfl⟩
    | ok m1 =>
      obtain ⟨bad, hmem, hexp, hparse⟩ := h
      rcases List.mem_cons.mp hmem with rfl | hmem'
      · exfalso
        unfold higher_version_step at hstep
        rw [if_neg (not_not_intro hexp), hparse] at hstep
        exact absurd hstep (by simp)
      · obtain ⟨err, herr⟩ := ih m1 ⟨bad, hmem', hexp, hparse⟩
        exact ⟨err, herr⟩

/-- C10: the precise-version and multi-minor checkers are total on arbitrary
version strings (they only split and re-join on dots), but the higher-version
checker needs every segment of the requested release and of each reached
expected record's version to parse as an integer; a non-numeric or empty
segment raises a `ValueError` outside the `AosVersionException` hierarchy,
which the entrypoint does not catch: the run crashes rather than failing.
A whitespace-padded numeric segment is not such an input: `int(" 3")`
parses, so a requested release " 3" with packages at version " 3.4" passes
both version checks and the task exits successfully. -/
theorem malformed_version_crashes_entrypoint
    (params : ModuleParams) (pkgs : List PackageRecord)
    (hpfx : params.rpm_pfx ≠ "")
    (hreqne : params.requested_openshift_release ≠ "")
    (hprec : check_precise_version_found pkgs (expected_pkgs_of params.rpm_pfx)
        params.requested_openshift_release = none)
    (hbad : (∃ seg ∈ pySplitDot params.requested_openshift_release, parseIntSeg seg = none)
      ∨ ((∃ req_release_arr, parseVersion params.requested_openshift_release
            = some req_release_arr)
        ∧ ∃ pkg ∈ pkgs, pkg.name ∈ expected_pkgs_of params.rpm_pfx
            ∧ ∃ seg ∈ pySplitDot pkg.version, parseIntSeg seg = none)) :
    (∃ err, runMain params (.ok pkgs) = .crashed err
      ∧ (∀ msg, runMain params (.ok pkgs) ≠ .failed msg)
      ∧ (∀ changed, runMain params (.ok pkgs) ≠ .exited changed))
    ∧ check_precise_version_found [⟨"origin", "3.x.1"⟩] ["origin"] "3.x" = none
    ∧ check_multi_minor_release [⟨"origin", "a.b.c"⟩, ⟨"origin", "a.d.c"⟩] ["origin"]
        = some (.foundMultiRelease ["origin"])
    ∧ parseIntSeg " 3" = some 3
    ∧ runMain ⟨" 3", "origin", "origin"⟩
        (.ok [⟨"origin", " 3.4"⟩, ⟨"origin-master", " 3.4"⟩, ⟨"origin-node", " 3.4"⟩])
        = .exited false := by
  refine ⟨?_, rfl, rfl, rfl, rfl⟩
  have hhigh : ∃ err, check_higher_version_found pkgs (expected_pkgs_of params.rpm_pfx)
      params.requested_openshift_release = .error err := by
    rcases hbad with ⟨seg, hmem, hbadseg⟩ | ⟨⟨req_release_arr, hreqparse⟩, hbadpkg⟩
    · refine ⟨"ValueError: invalid literal for int() in requested release "
          ++ params.requested_openshift_release, ?_⟩
      unfold check_higher_version_found
      rw [parseVersion_none_of_bad_segment hmem hbadseg]
    · obtain ⟨badpkg, hmem, hexp, seg, hsmem, hbadseg⟩ := hbadpkg
      have hpv : parseVersion badpkg.version = none :=
        parseVersion_none_of_bad_segment hsmem hbadseg
      obtain ⟨err, herr⟩ := higher_fold_error req_release_arr
        (expected_pkgs_of params.rpm_pfx) pkgs [] ⟨badpkg, hmem, hexp, hpv⟩
      refine ⟨err, ?_⟩
      rw [check_higher_eq_of_parse hreqparse]
      unfold higher_version_for_pkg
      rw [herr]
  obtain ⟨err, herr⟩ := hhigh
  have hrc : run_checks pkgs (expected_pkgs_of params.rpm_pfx)
      params.requested_openshift_release params.openshift_deployment_type
      = .error err := by
    unfold run_checks
    rw [if_pos hreqne, hprec, herr]
  refine ⟨err, ?_, ?_, ?_⟩
  · rw [runMain_ok params pkgs hpfx, hrc]
  · intro msg
    rw [runMain_ok params pkgs hpfx, hrc]
    simp
  · intro changed
    rw [runMain_ok params pkgs hpfx, hrc]
    simp

/-- Witness for C10: requested release "3.x" passes the precise check (all
three expected packages have a version truncating to "3.x") and then crashes
the higher-version check on `int("x")`. -/
theorem malformed_version_crashes_entrypoint_witness :
    ∃ err, runMain ⟨"3.x", "origin", "origin"⟩
      (.ok [⟨"origin", "3.x"⟩, ⟨"origin-master", "3.x"⟩, ⟨"origin-node", "3.x"⟩])
      = .crashed err :=
  ((malformed_version_crashes_entrypoint ⟨"3.x", "origin", "origin"⟩
      [⟨"origin", "3.x"⟩, ⟨"origin-master", "3.x"⟩, ⟨"origin-node", "3.x"⟩]
      (by decide) (by decide) rfl
      (.inl ⟨"x", by decide, rfl⟩)).1).imp (fun err h => h.1)

/-! ### Checkers depend only on expected-named records (C6) -/

theorem precise_found_factor (pkgs : List PackageRecord) (expected_pkgs : List String)
    (requested : String) :
    pkgs_precise_version_found pkgs expected_pkgs requested
      = ((pkgs.filter (fun pkg => decide (pkg.name ∈ expected_pkgs))).filter
          (fun pkg => decide (match_version pkg.version requested = requested))).map
            PackageRecord.name := by
  unfold pkgs_precise_version_found
  rw [List.filter_filter]
  congr 1
  apply List.filter_congr
  intro pkg _
  exact Bool.and_comm _ _

theorem higher_fold_filter (req_release_arr : List Int) (expected_pkgs : List String) :
    ∀ (pkgs : List PackageRecord) (m0 : List (String × List Int)),
    pkgs.foldlM (higher_version_step req_release_arr expected_pkgs) m0
      = (pkgs.filter (fun pkg => decide (pkg.name ∈ expected_pkgs))).foldlM
          (higher_version_step req_release_arr expected_pkgs) m0 := by
  intro pkgs
  induction pkgs with
  | nil => intro m0; rfl
  | cons pkg rest ih =>
    intro m0
    rw [List.foldlM_cons, List.filter_cons]
    by_cases hexp : pkg.name ∈ expected_pkgs
    · rw [if_pos (by simpa using hexp), List.foldlM_cons]
      cases hstep : higher_version_step req_release_arr expected_pkgs m0 pkg with
      | error err => rfl
      | ok m1 =>
        show rest.foldlM (higher_version_step req_release_arr expected_pkgs) m1 = _
        exact ih m1
    · rw [if_neg (by simpa using hexp)]
      have hstep : higher_version_step req_release_arr expected_pkgs m0 pkg = .ok m0 := by
        unfold higher_version_step
        rw [if_pos hexp]
      rw [hstep]
      show rest.foldlM (higher_version_step req_release_arr expected_pkgs) m0 = _
      exact ih m0

theorem filter_name_of_filter_expected {pkgs1 pkgs2 : List PackageRecord}
    {expected_pkgs : List String} {name : String}
    (h : pkgs1.filter (fun pkg => decide (pkg.name ∈ expected_pkgs))
        = pkgs2.filter (fun pkg => decide (pkg.name ∈ expected_pkgs)))
    (hname : name ∈ expected_pkgs) :
    pkgs1.filter (fun pkg => pkg.name == name)
      = pkgs2.filter (fun pkg => pkg.name == name) := by
  have hfac : ∀ pkgs : List PackageRecord,
      pkgs.filter (fun pkg => pkg.name == name)
        = (pkgs.filter (fun pkg => decide (pkg.name ∈ expected_pkgs))).filter
            (fun pkg => pkg.name == name) := by
    intro pkgs
    rw [List.filter_filter]
    apply List.filter_congr
    intro pkg _
    by_cases hn : pkg.name = name
    · simp [hn, hname]
    · simp [hn]
  rw [hfac pkgs1, hfac pkgs2, h]

/-- C6: each checker's outcome depends only on the records whose name is in
the expected-package set — two record lists agreeing on expected-named
records give identical results for all three checkers. -/
theorem checkers_ignore_unexpected_packages
    (expected_pkgs : List String) (requested : String)
    (pkgs1 pkgs2 : List PackageRecord)
    (h : pkgs1.filter (fun pkg => decide (pkg.name ∈ expected_pkgs))
        = pkgs2.filter (fun pkg => decide (pkg.name ∈ expected_pkgs))) :
    check_precise_version_found pkgs1 expected_pkgs requested
        = check_precise_version_found pkgs2 expected_pkgs requested
    ∧ check_higher_version_found pkgs1 expected_pkgs requested
        = check_higher_version_found pkgs2 expected_pkgs requested
    ∧ check_multi_minor_release pkgs1 expected_pkgs
        = check_multi_minor_release pkgs2 expected_pkgs := by
  refine ⟨?_, ?_, ?_⟩
  · have hfound : pkgs_precise_version_found pkgs1 expected_pkgs requested
        = pkgs_precise_version_found pkgs2 expected_pkgs requested := by
      rw [precise_found_factor, precise_found_factor, h]
    have hnf : precise_not_found pkgs1 expected_pkgs requested
        = precise_not_found pkgs2 expected_pkgs requested := by
      unfold precise_not_found
      rw [hfound]
    simp only [check_precise_version_found]
    rw [hnf]
  · have hvp : ∀ req_release_arr : List Int,
        higher_version_for_pkg pkgs1 expected_pkgs req_release_arr
          = higher_version_for_pkg pkgs2 expected_pkgs req_release_arr := by
      intro req_release_arr
      unfold higher_version_for_pkg
      rw [higher_fold_filter req_release_arr expected_pkgs pkgs1 [],
        higher_fold_filter req_release_arr expected_pkgs pkgs2 [], h]
    cases hpv : parseVersion requested with
    | none =>
      unfold check_higher_version_found
      rw [hpv]
    | some req_release_arr =>
      rw [check_higher_eq_of_parse hpv pkgs1 expected_pkgs,
        check_higher_eq_of_parse hpv pkgs2 expected_pkgs, hvp req_release_arr]
  · have hmf : multi_found pkgs1 expected_pkgs = multi_found pkgs2 expected_pkgs := by
      unfold multi_found
      apply List.filter_congr
      intro name hname
      rw [multi_minors_list_spec pkgs1 name, multi_minors_list_spec pkgs2 name,
        filter_name_of_filter_expected h hname]
    simp only [check_multi_minor_release]
    rw [hmf]

/-- Witness for C6: a record for an unexpected package name is equivalent to
no record at all. -/
theorem checkers_ignore_unexpected_packages_witness :
    check_precise_version_found [⟨"other", "1.0"⟩] ["origin"] "1.0"
        = check_precise_version_found [] ["origin"] "1.0"
    ∧ check_higher_version_found [⟨"other", "1.0"⟩] ["origin"] "1.0"
        = check_higher_version_found [] ["origin"] "1.0"
    ∧ check_multi_minor_release [⟨"other", "1.0"⟩] ["origin"]
        = check_multi_minor_release [] ["origin"] :=
  checkers_ignore_unexpected_packages ["origin"] "1.0" [⟨"other", "1.0"⟩] [] (by decide)

/-! ### Determinism and listing order (C9) -/

/-- C9 counterexample: the reported name list follows the iteration order of
the expected-name set (a Python `set`, whose enumeration order is incidental):
two enumerations of the same expected-name set produce differently ordered
`not_found` listings and different failure messages. -/
theorem listing_order_depends_on_enumeration :
    (["pkgA", "pkgB"] : List String).Perm ["pkgB", "pkgA"]
    ∧ precise_not_found [] ["pkgA", "pkgB"] "3.4" = ["pkgA", "pkgB"]
    ∧ precise_not_found [] ["pkgB", "pkgA"] "3.4" = ["pkgB", "pkgA"]
    ∧ precise_not_found [] ["pkgA", "pkgB"] "3.4"
        ≠ precise_not_found [] ["pkgB", "pkgA"] "3.4"
    ∧ exceptionMessage (.preciseVersionNotFound "3.4" ["pkgA", "pkgB"])
        ≠ exceptionMessage (.preciseVersionNotFound "3.4" ["pkgB", "pkgA"]) :=
  ⟨by decide, rfl, rfl, by decide, by decide⟩

/-- C9 (amended): a run is a deterministic function of its inputs including
the expected-set enumeration; the reported listings always enumerate names in
the expected-set iteration order, so two enumerations of the same set give
permuted listings and the same pass/fail outcome — but the order itself does
depend on that incidental enumeration. -/
theorem listing_order_follows_expected_enumeration
    (pkgs : List PackageRecord) (expected1 expected2 : List String) (requested : String)
    (hperm : expected1.Perm expected2) :
    (precise_not_found pkgs expected1 requested).Perm
        (precise_not_found pkgs expected2 requested)
    ∧ (multi_found pkgs expected1).Perm (multi_found pkgs expected2)
    ∧ (check_precise_version_found pkgs expected1 requested = none ↔
        check_precise_version_found pkgs expected2 requested = none)
    ∧ (check_multi_minor_release pkgs expected1 = none ↔
        check_multi_minor_release pkgs expected2 = none)
    ∧ (∀ (params : ModuleParams) (retrieval : Except String (List PackageRecord)),
        runMain params retrieval = runMain params retrieval) := by
  have hfound : pkgs_precise_version_found pkgs expected1 requested
      = pkgs_precise_version_found pkgs expected2 requested := by
    unfold pkgs_precise_version_found
    congr 1
    apply List.filter_congr
    intro pkg _
    simp [hperm.mem_iff]
  have hnfperm : (precise_not_found pkgs expected1 requested).Perm
      (precise_not_found pkgs expected2 requested) := by
    unfold precise_not_found
    rw [hfound]
    exact hperm.filter _
  have hmfperm : (multi_found pkgs expected1).Perm (multi_found pkgs expected2) := by
    unfold multi_found
    exact hperm.filter _
  refine ⟨hnfperm, hmfperm, ?_, ?_, fun _ _ => rfl⟩
  · have hempty : (precise_not_found pkgs expected1 requested = []) ↔
        (precise_not_found pkgs expected2 requested = []) := by
      rw [← List.length_eq_zero, ← List.length_eq_zero, hnfperm.length_eq]
    by_cases h1 : precise_not_found pkgs expected1 requested = []
    · have h2 := hempty.mp h1
      simp [check_precise_version_found, h1, h2]
    · have h2 : ¬ precise_not_found pkgs expected2 requested = [] :=
        fun hh => h1 (hempty.mpr hh)
      simp [check_precise_version_found, h1, h2]
  · have hempty : (multi_found pkgs expected1 = []) ↔ (multi_found pkgs expected2 = []) := by
      rw [← List.length_eq_zero, ← List.length_eq_zero, hmfperm.length_eq]
    by_cases h1 : multi_found pkgs expected1 = []
    · have h2 := hempty.mp h1
      simp [check_multi_minor_release, h1, h2]
    · have h2 : ¬ multi_found pkgs expected2 = [] := fun hh => h1 (hempty.mpr hh)
      simp [check_multi_minor_release, h1, h2]

/-- Witness for the amended C9: the two enumerations of the claim's example
set give permuted listings. -/
theorem listing_order_follows_expected_enumeration_witness :
    (precise_not_found [] ["pkgA", "pkgB"] "3.4").Perm
      (precise_not_found [] ["pkgB", "pkgA"] "3.4") :=
  (listing_order_follows_expected_enumeration [] ["pkgA", "pkgB"] ["pkgB", "pkgA"]
    "3.4" (by decide)).1

end AosVersion
